import Mathlib

/-!
Shallow embedding of the timeline layout engine of the Art Timeline App
(`src/utils/timeline.ts`, re-exported through `App.tsx`, together with
`src/components/TimeIndicator.tsx` and `src/components/Timeline.tsx`).

Conventions of the embedding:
* JS `number` values that the code only ever uses as integer years are `Int`;
  pixel offsets and config fields (which become fractional under zoom) are `ℚ`.
* An optional field (`end?: number`) is an `Option Int`; the destructuring
  default `const { start, end = start } = period` is `Option.getD`.
* JS falsiness of a number (`!end`, `end || d`) is explicit: `none` and
  `some 0` are falsy.
* `Math.round x` is `⌊x + 1/2⌋` (round half towards +∞), JS semantics.
* `Array.prototype.sort` with comparator `(a, b) => a.period.start - b.period.start`
  is a stable ascending sort by `period.start`; a stable sort's output is
  uniquely determined by comparator and input, so `List.insertionSort`
  (stable, see the check in `Mathlib.Data.List.Sort`) embeds it faithfully.
* The source's unbounded `while (true)` probe loop is embedded as `probeLoop`
  with an explicit fuel; `probe_exists` below proves the fuel
  `2 * placed.length + 2` is never exhausted, so the fueled function agrees
  with the unbounded loop.
-/

open List

/-- `TimePeriod` from `src/types/index.ts`: `{ start: number; end?: number }`. -/
structure TimePeriod where
  start : Int
  end' : Option Int := none
deriving DecidableEq, Repr

/-- `Movement` from `src/types/index.ts`. -/
structure Movement where
  id : String
  name : String
  period : TimePeriod
  description : String
  shortDescription : String
  color : String
  region : Option String := none
  keyArtists : Option (List String) := none
  keyWorks : Option (List String) := none
  imageUrl : Option String := none
deriving DecidableEq, Repr

/-- The shape of `TIMELINE_CONFIG` in `src/utils/timeline.ts`. -/
structure TimelineConfig where
  PIXELS_PER_YEAR : ℚ
  TIMELINE_PADDING : ℚ
  MOVEMENT_HEIGHT : ℚ
  MOVEMENT_SPACING : ℚ
deriving DecidableEq, Repr

/-- `TIMELINE_CONFIG` constant from `src/utils/timeline.ts`. -/
def TIMELINE_CONFIG : TimelineConfig :=
  { PIXELS_PER_YEAR := 2, TIMELINE_PADDING := 100,
    MOVEMENT_HEIGHT := 60, MOVEMENT_SPACING := 10 }

/-- The destructuring default `const { start, end = start } = period`:
`end` defaults to `start` only when absent (`undefined`), not when `0`. -/
def periodEnd (p : TimePeriod) : Int :=
  p.end'.getD p.start

/-- JS falsiness of an optional number: `undefined` and `0` are falsy. -/
def jsFalsy (e : Option Int) : Bool :=
  match e with
  | none => true
  | some v => v == 0

/-- JS strict equality `a === e` between a number and an optional number:
false when `e` is `undefined`. -/
def jsStrictEq (a : Int) (e : Option Int) : Bool :=
  match e with
  | none => false
  | some v => a == v

/-- JS `e || d` on an optional number `e`: yields `d` when `e` is falsy
(`undefined` or `0`), otherwise the value of `e`. -/
def jsOrElse (e : Option Int) (d : Int) : Int :=
  match e with
  | none => d
  | some v => if v = 0 then d else v

/-- JS `Math.round`: round half towards positive infinity. -/
def jsRound (q : ℚ) : Int :=
  ⌊q + 1 / 2⌋

/-- `yearToScrollOffset` from `src/utils/timeline.ts`. -/
def yearToScrollOffset (year : Int) (timeRange : TimePeriod)
    (config : TimelineConfig) : ℚ :=
  let startYear := timeRange.start
  let yearOffset := year - startYear
  config.TIMELINE_PADDING + (yearOffset : ℚ) * config.PIXELS_PER_YEAR

/-- `scrollOffsetToYear` from `src/utils/timeline.ts`. -/
def scrollOffsetToYear (scrollOffset : ℚ) (timeRange : TimePeriod)
    (config : TimelineConfig) : Int :=
  let startYear := timeRange.start
  let adjustedOffset := scrollOffset - config.TIMELINE_PADDING
  let yearOffset := adjustedOffset / config.PIXELS_PER_YEAR
  jsRound ((startYear : ℚ) + yearOffset)

/-- `movementsOverlap` from `src/utils/timeline.ts`:
`!(end1 <= start2 || end2 <= start1)` with `end` defaulting to `start`. -/
def movementsOverlap (movement1 movement2 : Movement) : Bool :=
  let start1 := movement1.period.start
  let end1 := periodEnd movement1.period
  let start2 := movement2.period.start
  let end2 := periodEnd movement2.period
  !(decide (end1 ≤ start2) || decide (end2 ≤ start1))

/-- The occupancy map of `arrangeMovementsInColumns`, flattened: the source
keeps `columns : { [key: number]: {movement, originalIndex}[] }`; an entry
`(c, m)` here means `m` is an occupant of column `c`. -/
abbrev Placed := List (Int × Movement)

/-- `columns[c].some(col => movementsOverlap(movement, col.movement))`:
does column `c` hold an occupant overlapping `movement`? -/
def conflictAt (placed : Placed) (movement : Movement) (c : Int) : Bool :=
  placed.any fun p => p.1 == c && movementsOverlap movement p.2

/-- The `while (true)` probe loop of `arrangeMovementsInColumns`, with fuel:
state is `(columnIndex, useLeftSide)`, the probed column is
`useLeftSide ? -columnIndex : columnIndex`; on a conflict the loop toggles
the side and, after the right side, increases the distance. -/
def probeLoop (placed : Placed) (movement : Movement) :
    Nat → Nat → Bool → Option Int
  | 0, _, _ => none
  | fuel + 1, columnIndex, useLeftSide =>
    let currentColumn : Int :=
      if useLeftSide then -(columnIndex : Int) else (columnIndex : Int)
    if conflictAt placed movement currentColumn then
      if useLeftSide then
        probeLoop placed movement fuel columnIndex false
      else
        probeLoop placed movement fuel (columnIndex + 1) true
    else
      some currentColumn

/-- The per-entity placement of `arrangeMovementsInColumns`: try the center
column `0`; if it conflicts, run the probe loop starting at
`columnIndex = 1, useLeftSide = true`. The fuel `2 * placed.length + 2`
is proved sufficient below (`probe_exists`), so this equals the
source's unbounded loop. -/
def findColumn (placed : Placed) (movement : Movement) : Int :=
  if conflictAt placed movement 0 then
    (probeLoop placed movement (2 * placed.length + 2) 1 true).getD 0
  else
    0

/-- One iteration of the `sortedMovements.forEach` body of
`arrangeMovementsInColumns`: record the movement as an occupant of the
found column and write the column at `movements.indexOf(movement)`. -/
def placeStep (movements : List Movement) (state : Placed × List Int)
    (movement : Movement) : Placed × List Int :=
  let originalIndex := movements.indexOf movement
  let c := findColumn state.1 movement
  (state.1 ++ [(c, movement)], state.2.set originalIndex c)

/-- The comparator `(a, b) => a.period.start - b.period.start` as the
ordering relation of the stable sort. -/
def startLE (a b : Movement) : Prop :=
  a.period.start ≤ b.period.start

instance : DecidableRel startLE := fun a b =>
  inferInstanceAs (Decidable (a.period.start ≤ b.period.start))

instance : IsTotal Movement startLE :=
  ⟨fun a b => le_total a.period.start b.period.start⟩

instance : IsTrans Movement startLE :=
  ⟨fun _ _ _ hab hbc => le_trans hab hbc⟩

/-- `arrangeMovementsInColumns` from `src/utils/timeline.ts`. -/
def arrangeMovementsInColumns (movements : List Movement) : List Int :=
  let sortedMovements := List.insertionSort startLE movements
  (sortedMovements.foldl (placeStep movements)
    ([], List.replicate movements.length 0)).2

/-- `formatYearRange` from `src/utils/timeline.ts`:
`if (!end || start === end) return start.toString()`. -/
def formatYearRange (period : TimePeriod) : String :=
  if jsFalsy period.end' || jsStrictEq period.start period.end' then
    toString period.start
  else
    toString period.start ++ " - " ++ toString (periodEnd period)

namespace TimeIndicator

/-- `formatRange` from `src/components/TimeIndicator.tsx` (same body as
`formatYearRange`). -/
def formatRange (range : TimePeriod) : String :=
  if jsFalsy range.end' || jsStrictEq range.start range.end' then
    toString range.start
  else
    toString range.start ++ " - " ++ toString (periodEnd range)

end TimeIndicator

/-- `updateVisibleRange` from `src/components/Timeline.tsx`: the viewport
height is `screenHeight - 200`, the new range clamps the converted years to
`[timeRange.start, timeRange.end || timeRange.start]`. -/
def updateVisibleRange (offset : ℚ) (screenHeight : ℚ)
    (timeRange : TimePeriod) (config : TimelineConfig) : TimePeriod :=
  let viewportHeight := screenHeight - 200
  let startYear := scrollOffsetToYear offset timeRange config
  let endYear := scrollOffsetToYear (offset + viewportHeight) timeRange config
  { start := max startYear timeRange.start,
    end' := some (min endYear (jsOrElse timeRange.end' timeRange.start)) }

/-- The full fold state of `arrangeMovementsInColumns` (occupancy map and
assignment array); `arrangeMovementsInColumns` is its second component. -/
def arrangeState (movements : List Movement) : Placed × List Int :=
  (List.insertionSort startLE movements).foldl (placeStep movements)
    ([], List.replicate movements.length 0)

/-- The column probed `j` steps after the loop is entered with
`columnIndex = ci, useLeftSide = true`: `-ci, ci, -(ci+1), ci+1, ...`. -/
def probeColumnFrom (ci : Nat) (j : Nat) : Int :=
  if j % 2 = 0 then -((ci : Int) + (j / 2 : Nat)) else ((ci : Int) + (j / 2 : Nat))

/-- The column probed `i` steps after the loop reaches state
`(ci, useLeftSide)`. -/
def probeAt (ci : Nat) (useLeftSide : Bool) (i : Nat) : Int :=
  probeColumnFrom ci (if useLeftSide then i else i + 1)

/-- The probe sequence of `arrangeMovementsInColumns` from its initial state
`columnIndex = 1, useLeftSide = true`: `-1, +1, -2, +2, -3, +3, ...`. -/
def probeColumn (n : Nat) : Int :=
  probeColumnFrom 1 n

/-- Occupants of one column are pairwise non-overlapping. -/
def placedOK (placed : Placed) : Prop :=
  ∀ c m₁ m₂, (c, m₁) ∈ placed → (c, m₂) ∈ placed → m₁ ≠ m₂ →
    movementsOverlap m₁ m₂ = false

/-- Modelled from the spec: "`InvalidConfig`: `pixelsPerYear <= 0` or
non-finite — fails fast at config construction, never silently proceeds".
No such validation exists anywhere in the source; this checked variant of
`scrollOffsetToYear` follows the spec's words, for comparison with the
unchecked source function. -/
def scrollOffsetToYearChecked (scrollOffset : ℚ) (timeRange : TimePeriod)
    (config : TimelineConfig) : Except String Int :=
  if config.PIXELS_PER_YEAR ≤ 0 then Except.error "InvalidConfig"
  else Except.ok (scrollOffsetToYear scrollOffset timeRange config)

/-- A config whose `PIXELS_PER_YEAR` is negative (finite, so the embedded
exact division matches the JS division): the spec says conversion must fail
on it. -/
def cfgNeg : TimelineConfig :=
  { TIMELINE_CONFIG with PIXELS_PER_YEAR := -1 }

/-- The first movement of the repository's own
`arrangeMovementsInColumns` test ("should place overlapping movements in
different columns", `timeline.utils.test.ts`): period 1400–1600. -/
def mvA : Movement :=
  { id := "test1", name := "Movement 1",
    period := { start := 1400, end' := some 1600 },
    description := "Test", shortDescription := "Test", color := "#000000" }

/-- The second movement of that test: period 1500–1700, overlapping `mvA`. -/
def mvB : Movement :=
  { id := "test2", name := "Movement 2",
    period := { start := 1500, end' := some 1700 },
    description := "Test", shortDescription := "Test", color := "#111111" }

/-- A movement touching `mvA` (1600–1700): touching periods do not overlap. -/
def mvD : Movement :=
  { id := "test3", name := "Movement 3",
    period := { start := 1600, end' := some 1700 },
    description := "Test", shortDescription := "Test", color := "#222222" }

/-! ### The probe loop: the column sequence it visits, minimality, termination -/

theorem probeAt_true_zero (ci : Nat) : probeAt ci true 0 = -(ci : Int) := by
  simp [probeAt, probeColumnFrom]

theorem probeAt_false_zero (ci : Nat) : probeAt ci false 0 = (ci : Int) := by
  norm_num [probeAt, probeColumnFrom]

theorem probeAt_true_succ (ci i : Nat) :
    probeAt ci true (i + 1) = probeAt ci false i := rfl

theorem probeAt_false_succ (ci i : Nat) :
    probeAt ci false (i + 1) = probeAt (ci + 1) true i := by
  have h2 : (i + 1 + 1) % 2 = i % 2 := by omega
  have h3 : (i + 1 + 1) / 2 = i / 2 + 1 := by omega
  have ha : probeAt ci false (i + 1) = probeColumnFrom ci (i + 1 + 1) := rfl
  have hb : probeAt (ci + 1) true i = probeColumnFrom (ci + 1) i := rfl
  rw [ha, hb]
  unfold probeColumnFrom
  rw [h2, h3]
  split_ifs <;> push_cast <;> ring

/-- Any value the probe loop returns is a conflict-free column, and it is the
FIRST conflict-free column in the probe sequence from the loop's state. -/
theorem probeLoop_minimal (placed : Placed) (movement : Movement) :
    ∀ (fuel ci : Nat) (left : Bool) (c : Int),
      probeLoop placed movement fuel ci left = some c →
      conflictAt placed movement c = false ∧
        ∃ n, c = probeAt ci left n ∧
          ∀ k < n, conflictAt placed movement (probeAt ci left k) = true := by
  intro fuel
  induction fuel with
  | zero => intro ci left c h; simp [probeLoop] at h
  | succ fuel ih =>
    intro ci left c h
    simp only [probeLoop] at h
    cases left with
    | true =>
      by_cases hc : conflictAt placed movement (-(ci : Int)) = true
      · simp only [if_true, hc, if_pos] at h
        obtain ⟨hfree, n, hn, hmin⟩ := ih ci false c h
        refine ⟨hfree, n + 1, by rw [probeAt_true_succ]; exact hn, ?_⟩
        intro k hk
        match k with
        | 0 => rw [probeAt_true_zero]; exact hc
        | k + 1 => rw [probeAt_true_succ]; exact hmin k (by omega)
      · rw [Bool.not_eq_true] at hc
        simp only [if_true, hc, Bool.false_eq_true, if_false, Option.some.injEq] at h
        subst h
        exact ⟨hc, 0, by rw [probeAt_true_zero], by omega⟩
    | false =>
      by_cases hc : conflictAt placed movement (ci : Int) = true
      · simp only [Bool.false_eq_true, if_false, hc, if_pos] at h
        obtain ⟨hfree, n, hn, hmin⟩ := ih (ci + 1) true c h
        refine ⟨hfree, n + 1, by rw [probeAt_false_succ]; exact hn, ?_⟩
        intro k hk
        match k with
        | 0 => rw [probeAt_false_zero]; exact hc
        | k + 1 => rw [probeAt_false_succ]; exact hmin k (by omega)
      · rw [Bool.not_eq_true] at hc
        simp only [Bool.false_eq_true, if_false, hc, Option.some.injEq] at h
        subst h
        exact ⟨hc, 0, by rw [probeAt_false_zero], by omega⟩

/-- If the fueled probe loop fails, every column it visited has a conflict. -/
theorem probeLoop_none (placed : Placed) (movement : Movement) :
    ∀ (fuel ci : Nat) (left : Bool),
      probeLoop placed movement fuel ci left = none →
      ∀ i < fuel, conflictAt placed movement (probeAt ci left i) = true := by
  intro fuel
  induction fuel with
  | zero => intro ci left _ i hi; omega
  | succ fuel ih =>
    intro ci left h i hi
    simp only [probeLoop] at h
    cases left with
    | true =>
      by_cases hc : conflictAt placed movement (-(ci : Int)) = true
      · simp only [if_true, hc, if_pos] at h
        match i with
        | 0 => rw [probeAt_true_zero]; exact hc
        | i + 1 => rw [probeAt_true_succ]; exact ih ci false h i (by omega)
      · rw [Bool.not_eq_true] at hc
        simp [if_true, hc] at h
    | false =>
      by_cases hc : conflictAt placed movement (ci : Int) = true
      · simp only [Bool.false_eq_true, if_false, hc, if_pos] at h
        match i with
        | 0 => rw [probeAt_false_zero]; exact hc
        | i + 1 => rw [probeAt_false_succ]; exact ih (ci + 1) true h i (by omega)
      · rw [Bool.not_eq_true] at hc
        simp [hc] at h

theorem probeColumn_injective : Function.Injective probeColumn := by
  intro i j h
  simp only [probeColumn, probeColumnFrom] at h
  split_ifs at h <;> omega

/-- A column with a conflicting occupant is an occupied column. -/
theorem conflictAt_true_mem {placed : Placed} {movement : Movement} {c : Int}
    (h : conflictAt placed movement c = true) : c ∈ placed.map Prod.fst := by
  simp only [conflictAt, List.any_eq_true, Bool.and_eq_true, beq_iff_eq] at h
  obtain ⟨p, hp, h1, _⟩ := h
  exact List.mem_map.2 ⟨p, hp, h1⟩

/-- Pigeonhole: the probe loop with fuel `2 * placed.length + 2` always
returns a column, because its candidates are pairwise-distinct and outnumber
the occupied columns. -/
theorem probe_exists (placed : Placed) (movement : Movement) :
    ∃ c, probeLoop placed movement (2 * placed.length + 2) 1 true = some c := by
  cases hres : probeLoop placed movement (2 * placed.length + 2) 1 true with
  | some c => exact ⟨c, rfl⟩
  | none =>
    exfalso
    have hall := probeLoop_none placed movement _ 1 true hres
    have hmem : ∀ c ∈ (List.range (2 * placed.length + 2)).map probeColumn,
        c ∈ placed.map Prod.fst := by
      intro c hc
      obtain ⟨i, hi, rfl⟩ := List.mem_map.1 hc
      exact conflictAt_true_mem (hall i (List.mem_range.1 hi))
    have hnd : ((List.range (2 * placed.length + 2)).map probeColumn).Nodup :=
      (List.nodup_range _).map probeColumn_injective
    have hsub : ((List.range (2 * placed.length + 2)).map probeColumn).toFinset ⊆
        (placed.map Prod.fst).toFinset := by
      intro c hc
      exact List.mem_toFinset.2 (hmem c (List.mem_toFinset.1 hc))
    have hcard := Finset.card_le_card hsub
    rw [List.toFinset_card_of_nodup hnd] at hcard
    have h1 : ((List.range (2 * placed.length + 2)).map probeColumn).length =
        2 * placed.length + 2 := by simp
    have h2 : (placed.map Prod.fst).toFinset.card ≤ placed.length := by
      calc (placed.map Prod.fst).toFinset.card ≤ (placed.map Prod.fst).length :=
            List.toFinset_card_le _
        _ = placed.length := List.length_map _ _
    omega

/-- The column `findColumn` selects never conflicts with an occupant. -/
theorem findColumn_free (placed : Placed) (movement : Movement) :
    conflictAt placed movement (findColumn placed movement) = false := by
  unfold findColumn
  split
  case isFalse h => rwa [Bool.not_eq_true] at h
  case isTrue h =>
    obtain ⟨c, hc⟩ := probe_exists placed movement
    rw [hc, Option.getD_some]
    exact (probeLoop_minimal placed movement _ 1 true c hc).1

/-! ### The placement fold: invariants -/

theorem movementsOverlap_symm (a b : Movement) :
    movementsOverlap a b = movementsOverlap b a := by
  simp only [movementsOverlap]
  rw [Bool.or_comm]

/-- `conflictAt` is false iff no occupant of the column overlaps. -/
theorem conflictAt_eq_false {placed : Placed} {movement : Movement} {c : Int} :
    conflictAt placed movement c = false ↔
      ∀ p ∈ placed, p.1 = c → movementsOverlap movement p.2 = false := by
  simp only [conflictAt, List.any_eq_false, Bool.and_eq_true, beq_iff_eq, not_and,
    Bool.not_eq_true]

theorem getD_set_self {α : Type} (l : List α) (i : Nat) (a d : α)
    (h : i < l.length) : (l.set i a).getD i d = a := by
  simp [List.getD_eq_getElem?_getD, List.getElem?_set_self, h]

theorem getD_set_ne {α : Type} (l : List α) (i j : Nat) (a d : α)
    (h : i ≠ j) : (l.set i a).getD j d = l.getD j d := by
  simp [List.getD_eq_getElem?_getD, List.getElem?_set_ne h]

/-- `indexOf` returns the index of the FIRST occurrence. -/
theorem indexOf_le_of_get {α : Type} [DecidableEq α] :
    ∀ (l : List α) (j : Nat) (hj : j < l.length),
      l.indexOf (l.get ⟨j, hj⟩) ≤ j := by
  intro l
  induction l with
  | nil => intro j hj; simp at hj
  | cons a t ih =>
    intro j hj
    match j with
    | 0 => simp [List.indexOf_cons_self]
    | j + 1 =>
      have hget : (a :: t).get ⟨j + 1, hj⟩ = t.get ⟨j, by simpa using hj⟩ := rfl
      rw [hget]
      by_cases hne : t.get ⟨j, by simpa using hj⟩ = a
      · rw [hne, List.indexOf_cons_self]; omega
      · rw [List.indexOf_cons_ne _ (fun h => hne h.symm)]
        have := ih j (by simpa using hj)
        omega

/-- The single induction carrying all invariants of the
`sortedMovements.forEach` fold of `arrangeMovementsInColumns`:
* the occupancy map stays pairwise non-overlapping per column;
* the assignment array keeps its length;
* any original index holding an already-placed movement holds its column;
* after processing, the occupants are exactly the input movements.
-/
theorem fold_inv (movements : List Movement) (hnd : movements.Nodup) :
    ∀ (toProcess : List Movement) (placed : Placed) (asg : List Int),
      placed.map Prod.snd ++ toProcess ~ movements →
      placedOK placed →
      asg.length = movements.length →
      (∀ (i : Nat) (hi : i < movements.length),
        movements.get ⟨i, hi⟩ ∈ placed.map Prod.snd →
          (asg.getD i 0, movements.get ⟨i, hi⟩) ∈ placed) →
      placedOK (toProcess.foldl (placeStep movements) (placed, asg)).1 ∧
      (toProcess.foldl (placeStep movements) (placed, asg)).2.length =
        movements.length ∧
      (∀ (i : Nat) (hi : i < movements.length),
        movements.get ⟨i, hi⟩ ∈
            (toProcess.foldl (placeStep movements) (placed, asg)).1.map Prod.snd →
          ((toProcess.foldl (placeStep movements) (placed, asg)).2.getD i 0,
              movements.get ⟨i, hi⟩)
            ∈ (toProcess.foldl (placeStep movements) (placed, asg)).1) ∧
      (toProcess.foldl (placeStep movements) (placed, asg)).1.map Prod.snd ~
        movements := by
  intro toProcess
  induction toProcess with
  | nil =>
    intro placed asg hperm hOK hlen hinv4
    rw [List.append_nil] at hperm
    exact ⟨hOK, hlen, hinv4, hperm⟩
  | cons m rest ih =>
    intro placed asg hperm hOK hlen hinv4
    have hm_mem : m ∈ movements := hperm.subset (by simp)
    have hoi_lt : movements.indexOf m < movements.length :=
      List.indexOf_lt_length.2 hm_mem
    have hoi_get : movements.get ⟨movements.indexOf m, hoi_lt⟩ = m :=
      List.indexOf_get hoi_lt
    have hnodup_all : (placed.map Prod.snd ++ m :: rest).Nodup :=
      hperm.nodup_iff.2 hnd
    have hm_not_placed : m ∉ placed.map Prod.snd := by
      rcases List.nodup_append.1 hnodup_all with ⟨_, _, hdisj⟩
      intro hmem
      exact hdisj hmem (by simp)
    have hfree : conflictAt placed m (findColumn placed m) = false :=
      findColumn_free placed m
    have hperm' :
        (placed ++ [(findColumn placed m, m)]).map Prod.snd ++ rest ~ movements := by
      rw [List.map_append, List.append_assoc]
      simpa using hperm
    have hOK' : placedOK (placed ++ [(findColumn placed m, m)]) := by
      intro c0 m₁ m₂ h₁ h₂ hne
      rcases List.mem_append.1 h₁ with h₁l | h₁r
      · rcases List.mem_append.1 h₂ with h₂l | h₂r
        · exact hOK c0 m₁ m₂ h₁l h₂l hne
        · have he : c0 = findColumn placed m ∧ m₂ = m := by
            simpa [Prod.ext_iff] using h₂r
          rcases he with ⟨hc0, hm2⟩
          rw [hm2, movementsOverlap_symm]
          exact conflictAt_eq_false.1 hfree _ h₁l hc0
      · have he : c0 = findColumn placed m ∧ m₁ = m := by
          simpa [Prod.ext_iff] using h₁r
        rcases he with ⟨hc0, hm1⟩
        rcases List.mem_append.1 h₂ with h₂l | h₂r
        · rw [hm1]
          exact conflictAt_eq_false.1 hfree _ h₂l hc0
        · have he2 : c0 = findColumn placed m ∧ m₂ = m := by
            simpa [Prod.ext_iff] using h₂r
          exact absurd (hm1.trans he2.2.symm) hne
    have hlen' : (asg.set (movements.indexOf m) (findColumn placed m)).length =
        movements.length := by
      rw [List.length_set]; exact hlen
    have hinv4' : ∀ (i : Nat) (hi : i < movements.length),
        movements.get ⟨i, hi⟩ ∈ (placed ++ [(findColumn placed m, m)]).map Prod.snd →
          ((asg.set (movements.indexOf m) (findColumn placed m)).getD i 0,
              movements.get ⟨i, hi⟩) ∈ placed ++ [(findColumn placed m, m)] := by
      intro i hi hmem'
      by_cases hio : i = movements.indexOf m
      · subst hio
        rw [hoi_get, getD_set_self _ _ _ _ (hlen ▸ hoi_lt)]
        exact List.mem_append_right _ (by simp)
      · have hne_m : movements.get ⟨i, hi⟩ ≠ m := by
          intro he
          exact hio (Fin.mk_eq_mk.1 ((List.Nodup.get_inj_iff hnd).1
            (he.trans hoi_get.symm)))
        have hmem : movements.get ⟨i, hi⟩ ∈ placed.map Prod.snd := by
          have h' : (∃ a, (a, movements.get ⟨i, hi⟩) ∈ placed) ∨
              movements.get ⟨i, hi⟩ = m := by simpa using hmem'
          rcases h' with ⟨a, ha⟩ | h
          · exact List.mem_map.2 ⟨(a, movements.get ⟨i, hi⟩), ha, rfl⟩
          · exact absurd h hne_m
        rw [getD_set_ne _ _ _ _ _ (fun h => hio h.symm)]
        exact List.mem_append_left _ (hinv4 i hi hmem)
    rw [List.foldl_cons]
    have hstep : placeStep movements (placed, asg) m =
        (placed ++ [(findColumn placed m, m)],
          asg.set (movements.indexOf m) (findColumn placed m)) := rfl
    rw [hstep]
    exact ih _ _ hperm' hOK' hlen' hinv4'

/-- The assignment array always has the length of the input list. -/
theorem arrange_length (movements : List Movement) :
    (arrangeMovementsInColumns movements).length = movements.length := by
  have key : ∀ (ts : List Movement) (st : Placed × List Int),
      ((ts.foldl (placeStep movements) st).2).length = st.2.length := by
    intro ts
    induction ts with
    | nil => intro st; rfl
    | cons m rest ih =>
      intro st
      rw [List.foldl_cons, ih]
      simp [placeStep]
  simpa [arrangeMovementsInColumns] using
    key (List.insertionSort startLE movements)
      ([], List.replicate movements.length 0)

/-- `fold_inv` instantiated at the initial state of
`arrangeMovementsInColumns`: for duplicate-free inputs, the final occupancy
map is per-column non-overlapping, holds exactly the input movements, and
the assignment array points every index at its movement's column. -/
theorem arrangeState_spec (movements : List Movement) (hnd : movements.Nodup) :
    placedOK (arrangeState movements).1 ∧
    (arrangeState movements).2.length = movements.length ∧
    (∀ (i : Nat) (hi : i < movements.length),
      ((arrangeState movements).2.getD i 0, movements.get ⟨i, hi⟩) ∈
        (arrangeState movements).1) ∧
    (arrangeState movements).1.map Prod.snd ~ movements := by
  have h := fold_inv movements hnd (List.insertionSort startLE movements)
    [] (List.replicate movements.length 0)
    (by simpa using List.perm_insertionSort startLE movements)
    (fun c m₁ m₂ h₁ _ _ => absurd h₁ (List.not_mem_nil _))
    (List.length_replicate _ _)
    (fun i hi hmem => absurd hmem (by simp))
  obtain ⟨hOK, hlen, hinv4, hperm⟩ := h
  exact ⟨hOK, hlen,
    fun i hi => hinv4 i hi (hperm.mem_iff.2 (movements.get_mem i hi)),
    hperm⟩

/-! ### Order independence machinery -/

/-- Two sorted permutations of each other are equal when the sort key is
injective on their elements. -/
theorem sorted_perm_eq_of_inj :
    ∀ (l₁ l₂ : List Movement), l₁ ~ l₂ →
      l₁.Sorted startLE → l₂.Sorted startLE →
      (∀ a ∈ l₁, ∀ b ∈ l₁, a.period.start = b.period.start → a = b) →
      l₁ = l₂ := by
  intro l₁
  induction l₁ with
  | nil =>
    intro l₂ hperm _ _ _
    exact (hperm.symm.eq_nil).symm
  | cons a t ih =>
    intro l₂ hperm hs₁ hs₂ hinj
    cases l₂ with
    | nil => simp at hperm
    | cons b t₂ =>
      have hab : a = b := by
        have ha2 : a ∈ b :: t₂ := hperm.subset (by simp)
        have hb1 : b ∈ a :: t := hperm.symm.subset (by simp)
        rcases List.mem_cons.1 ha2 with h | h
        · exact h
        · rcases List.mem_cons.1 hb1 with h' | h'
          · exact h'.symm
          · have hle1 : startLE a b := (List.sorted_cons.1 hs₁).1 b h'
            have hle2 : startLE b a := (List.sorted_cons.1 hs₂).1 a h
            exact hinj a (by simp) b (by simp [h']) (le_antisymm hle1 hle2)
      subst hab
      have hperm' : t ~ t₂ := hperm.cons_inv
      rw [ih t₂ hperm' (List.sorted_cons.1 hs₁).2 (List.sorted_cons.1 hs₂).2
        (fun x hx y hy he => hinj x (by simp [hx]) y (by simp [hy]) he)]

/-- When start years are injective on the input, sorting is invariant under
permutation of the input. -/
theorem insertionSort_eq_of_perm (l₁ l₂ : List Movement) (hperm : l₁ ~ l₂)
    (hinj : ∀ a ∈ l₁, ∀ b ∈ l₁, a.period.start = b.period.start → a = b) :
    List.insertionSort startLE l₁ = List.insertionSort startLE l₂ := by
  apply sorted_perm_eq_of_inj
  · exact (List.perm_insertionSort startLE l₁).trans
      (hperm.trans (List.perm_insertionSort startLE l₂).symm)
  · exact List.sorted_insertionSort startLE l₁
  · exact List.sorted_insertionSort startLE l₂
  · intro a ha b hb he
    exact hinj a ((List.perm_insertionSort startLE l₁).subset ha)
      b ((List.perm_insertionSort startLE l₁).subset hb) he

/-- The occupancy-map component of the fold ignores the assignment array
and the original list: it only folds over the processed movements. -/
theorem foldl_fst_eq (movements : List Movement) :
    ∀ (ts : List Movement) (pl : Placed) (asg : List Int),
      (ts.foldl (placeStep movements) (pl, asg)).1 =
        ts.foldl (fun p m => p ++ [(findColumn p m, m)]) pl := by
  intro ts
  induction ts with
  | nil => intro pl asg; rfl
  | cons m rest ih =>
    intro pl asg
    rw [List.foldl_cons, List.foldl_cons]
    exact ih _ _

/-- In an occupancy map whose occupants are duplicate-free, a movement sits
in at most one column. -/
theorem snd_nodup_col_unique :
    ∀ {placed : Placed}, (placed.map Prod.snd).Nodup →
      ∀ {c₁ c₂ : Int} {m : Movement},
        (c₁, m) ∈ placed → (c₂, m) ∈ placed → c₁ = c₂ := by
  intro placed
  induction placed with
  | nil => intro _ c₁ c₂ m h₁; simp at h₁
  | cons p rest ih =>
    intro hnd c₁ c₂ m h₁ h₂
    have hnd' : (∀ (x : Int), (x, p.2) ∉ rest) ∧ (rest.map Prod.snd).Nodup := by
      simpa using hnd
    rcases List.mem_cons.1 h₁ with h | h <;> rcases List.mem_cons.1 h₂ with h' | h'
    · exact congrArg Prod.fst (h.trans h'.symm)
    · exfalso
      have hm : p.2 = m := by rw [← h]
      exact hnd'.1 c₂ (by rw [hm]; exact h')
    · exfalso
      have hm : p.2 = m := by rw [← h']
      exact hnd'.1 c₁ (by rw [hm]; exact h)
    · exact ih hnd'.2 h h'

/-! ### Claim theorems -/

/-- C1: for every input list of movements with pairwise-distinct values,
any two movements that `arrangeMovementsInColumns` assigns to the same
column index do not overlap in time (`movementsOverlap` is false). -/
theorem arrange_same_column_no_overlap
    (movements : List Movement) (hnd : movements.Nodup)
    (i j : Nat) (hi : i < movements.length) (hj : j < movements.length)
    (hij : i ≠ j)
    (heq : (arrangeMovementsInColumns movements).getD i 0 =
           (arrangeMovementsInColumns movements).getD j 0) :
    movementsOverlap (movements.get ⟨i, hi⟩) (movements.get ⟨j, hj⟩) = false := by
  obtain ⟨hOK, _, hmem, _⟩ := arrangeState_spec movements hnd
  have hix := hmem i hi
  have hjx := hmem j hj
  have harr : arrangeMovementsInColumns movements = (arrangeState movements).2 := rfl
  rw [harr] at heq
  rw [heq] at hix
  refine hOK _ _ _ hix hjx fun he => hij ?_
  have := (List.Nodup.get_inj_iff hnd).1 he
  exact Fin.mk_eq_mk.1 this

/-- Witness for C1: `mvA` (1400–1600) and `mvD` (1600–1700) touch, both get
column 0, and indeed do not overlap. -/
theorem arrange_same_column_no_overlap_witness :
    [mvA, mvD].Nodup ∧ (0 : Nat) ≠ 1 ∧
    (arrangeMovementsInColumns [mvA, mvD]).getD 0 0 =
      (arrangeMovementsInColumns [mvA, mvD]).getD 1 0 ∧
    movementsOverlap mvA mvD = false :=
  ⟨by decide, by decide, by decide,
    arrange_same_column_no_overlap [mvA, mvD] (by decide) 0 1 (by decide)
      (by decide) (by decide) (by decide)⟩

/-- C2 (code bug): on the repository's own test input — `mvA` (1400–1600)
followed by `mvB` (1500–1700) — the code produces `[0, -1]` (the probe
tries the LEFT column `-1` first), not the `[0, 1]` the test
(`timeline.utils.test.ts`, "should place overlapping movements in
different columns") and the spec expect. -/
theorem arrange_two_overlapping_eval :
    arrangeMovementsInColumns [mvA, mvB] = [0, -1] ∧
    arrangeMovementsInColumns [mvA, mvB] ≠ [0, 1] := by
  constructor
  · decide
  · decide

/-- C3: when the center column conflicts, `findColumn` places the entity in
the FIRST conflict-free column of the probe sequence
`-1, +1, -2, +2, -3, +3, ...` (`probeColumn`), every earlier probe having
conflicted; the sequence visits `-(d+1)` before `+(d+1)` and increases the
distance `d` only after both sides failed. -/
theorem findColumn_probes_center_out :
    (∀ d : Nat, probeColumn (2 * d) = -((d : Int) + 1) ∧
        probeColumn (2 * d + 1) = (d : Int) + 1) ∧
    ∀ (placed : Placed) (movement : Movement),
      conflictAt placed movement 0 = true →
      ∃ n, findColumn placed movement = probeColumn n ∧
        conflictAt placed movement (probeColumn n) = false ∧
        ∀ k < n, conflictAt placed movement (probeColumn k) = true := by
  constructor
  · intro d
    have h1 : (2 * d) % 2 = 0 := by omega
    have h2 : (2 * d) / 2 = d := by omega
    have h3 : (2 * d + 1) % 2 = 1 := by omega
    have h4 : (2 * d + 1) / 2 = d := by omega
    constructor
    · simp [probeColumn, probeColumnFrom, h1, h2]
      ring
    · simp [probeColumn, probeColumnFrom, h3, h4]
      ring
  · intro placed movement hc
    obtain ⟨c, hcl⟩ := probe_exists placed movement
    obtain ⟨hfree, n, hcn, hmin⟩ := probeLoop_minimal placed movement _ 1 true c hcl
    have hpc : ∀ k, probeAt 1 true k = probeColumn k := fun k => rfl
    refine ⟨n, ?_, ?_, ?_⟩
    · unfold findColumn
      rw [if_pos hc, hcl, Option.getD_some, hcn, hpc]
    · rw [← hpc, ← hcn]
      exact hfree
    · intro k hk
      rw [← hpc]
      exact hmin k hk

/-- Witness for C3: `mvB` against an occupancy map with `mvA` in the
center column. -/
theorem findColumn_probes_center_out_witness :
    conflictAt [((0 : Int), mvA)] mvB 0 = true ∧
    ∃ n, findColumn [((0 : Int), mvA)] mvB = probeColumn n ∧
      conflictAt [((0 : Int), mvA)] mvB (probeColumn n) = false ∧
      ∀ k < n, conflictAt [((0 : Int), mvA)] mvB (probeColumn k) = true :=
  ⟨by decide, findColumn_probes_center_out.2 [((0 : Int), mvA)] mvB (by decide)⟩

/-- C8: `arrangeMovementsInColumns` terminates on every finite input: the
output always has the input's length, and every probe-loop run reaches a
conflict-free column within `2 * placed.length + 2` iterations (a column
beyond the occupied ones is empty), so the source's unbounded loop always
exits. -/
theorem arrange_terminates :
    (∀ movements : List Movement,
      (arrangeMovementsInColumns movements).length = movements.length) ∧
    ∀ (placed : Placed) (movement : Movement),
      ∃ c, probeLoop placed movement (2 * placed.length + 2) 1 true = some c ∧
        conflictAt placed movement c = false := by
  refine ⟨arrange_length, ?_⟩
  intro placed movement
  obtain ⟨c, hc⟩ := probe_exists placed movement
  exact ⟨c, hc, (probeLoop_minimal placed movement _ 1 true c hc).1⟩

/-- C9: when the input list repeats a movement value, `indexOf` always
yields the FIRST occurrence, so the output slot of any later duplicate is
never written and keeps the fill value `0`. -/
theorem arrange_duplicate_keeps_zero
    (movements : List Movement) (i j : Nat) (hj : j < i)
    (hi : i < movements.length)
    (hdup : movements.get ⟨j, by omega⟩ = movements.get ⟨i, hi⟩) :
    (arrangeMovementsInColumns movements).getD i 0 = 0 := by
  have key : ∀ (ts : List Movement) (st : Placed × List Int),
      (∀ m ∈ ts, movements.indexOf m ≠ i) →
      ((ts.foldl (placeStep movements) st).2).getD i 0 = st.2.getD i 0 := by
    intro ts
    induction ts with
    | nil => intro st _; rfl
    | cons m rest ih =>
      intro st hne
      rw [List.foldl_cons]
      rw [ih _ (fun m' hm' => hne m' (by simp [hm']))]
      exact getD_set_ne _ _ _ _ _ (hne m (by simp))
  have hne : ∀ m ∈ List.insertionSort startLE movements,
      movements.indexOf m ≠ i := by
    intro m hm hidx
    have hmem : m ∈ movements := (List.perm_insertionSort startLE movements).subset hm
    have hlt : movements.indexOf m < movements.length :=
      List.indexOf_lt_length.2 hmem
    have hgi : movements.get ⟨i, hi⟩ = m := by
      rw [← List.indexOf_get hlt]
      congr 1
      exact Fin.mk_eq_mk.2 hidx.symm
    have hle : movements.indexOf m ≤ j := by
      have := indexOf_le_of_get movements j (by omega)
      rwa [hdup, hgi] at this
    omega
  have harr : arrangeMovementsInColumns movements =
      ((List.insertionSort startLE movements).foldl (placeStep movements)
        ([], List.replicate movements.length 0)).2 := rfl
  rw [harr, key _ _ hne]
  simp [List.getD_eq_getElem?_getD, List.getElem?_replicate]
  split
  · rfl
  · rfl

/-- Witness for C9: three copies of the multi-year `mvA`; the algorithm
yields `[1, 0, 0]`, so positions 1 and 2 (both duplicates of position 0)
keep column 0 although `mvA` overlaps itself. -/
theorem arrange_duplicate_keeps_zero_witness :
    (0 : Nat) < 2 ∧ (2 : Nat) < 3 ∧
    [mvA, mvA, mvA].get ⟨0, by decide⟩ = [mvA, mvA, mvA].get ⟨2, by decide⟩ ∧
    (arrangeMovementsInColumns [mvA, mvA, mvA]).getD 2 0 = 0 ∧
    (arrangeMovementsInColumns [mvA, mvA, mvA]).getD 1 0 = 0 ∧
    movementsOverlap mvA mvA = true ∧
    arrangeMovementsInColumns [mvA, mvA, mvA] = [1, 0, 0] :=
  ⟨by decide, by decide, rfl,
    arrange_duplicate_keeps_zero [mvA, mvA, mvA] 2 0 (by decide) (by decide) rfl,
    arrange_duplicate_keeps_zero [mvA, mvA, mvA] 1 0 (by decide) (by decide) rfl,
    by decide, by decide⟩

/-- C7: for inputs whose start years are pairwise distinct, the column each
movement receives from `arrangeMovementsInColumns` does not depend on the
order of the input list: under any permutation, the same movement gets the
same column at its (permuted) index. -/
theorem arrange_order_independent
    (l₁ l₂ : List Movement) (hperm : l₁ ~ l₂)
    (hstarts : l₁.Pairwise fun a b => a.period.start ≠ b.period.start)
    (i j : Nat) (hi : i < l₁.length) (hj : j < l₂.length)
    (heq : l₁.get ⟨i, hi⟩ = l₂.get ⟨j, hj⟩) :
    (arrangeMovementsInColumns l₁).getD i 0 =
      (arrangeMovementsInColumns l₂).getD j 0 := by
  have hinj : ∀ a ∈ l₁, ∀ b ∈ l₁, a.period.start = b.period.start → a = b := by
    intro a ha b hb he
    by_contra hne
    have hsym : Symmetric (fun (a b : Movement) =>
        a.period.start ≠ b.period.start) := fun _ _ hxy he2 => hxy he2.symm
    exact List.Pairwise.forall hsym hstarts ha hb hne he
  have hnd₁ : l₁.Nodup := hstarts.imp fun h => fun he => h (by rw [he])
  have hnd₂ : l₂.Nodup := hperm.nodup_iff.1 hnd₁
  obtain ⟨_, _, hmem₁, _⟩ := arrangeState_spec l₁ hnd₁
  obtain ⟨_, _, hmem₂, hperm₂⟩ := arrangeState_spec l₂ hnd₂
  have hsorted_eq : List.insertionSort startLE l₁ = List.insertionSort startLE l₂ :=
    insertionSort_eq_of_perm l₁ l₂ hperm hinj
  have hplaced_eq : (arrangeState l₁).1 = (arrangeState l₂).1 := by
    unfold arrangeState
    rw [foldl_fst_eq, foldl_fst_eq, hsorted_eq]
  have h₁ := hmem₁ i hi
  have h₂ := hmem₂ j hj
  rw [heq, hplaced_eq] at h₁
  have hnodup_snd : ((arrangeState l₂).1.map Prod.snd).Nodup :=
    hperm₂.nodup_iff.2 hnd₂
  have harr₁ : arrangeMovementsInColumns l₁ = (arrangeState l₁).2 := rfl
  have harr₂ : arrangeMovementsInColumns l₂ = (arrangeState l₂).2 := rfl
  rw [harr₁, harr₂]
  exact snd_nodup_col_unique hnodup_snd h₁ h₂

/-- Witness for C7: `[mvA, mvB]` and its swap `[mvB, mvA]`; `mvA` receives
column 0 at its index in both. -/
theorem arrange_order_independent_witness :
    ([mvA, mvB] ~ [mvB, mvA]) ∧
    ([mvA, mvB].Pairwise fun a b => a.period.start ≠ b.period.start) ∧
    [mvA, mvB].get ⟨0, by decide⟩ = [mvB, mvA].get ⟨1, by decide⟩ ∧
    (arrangeMovementsInColumns [mvA, mvB]).getD 0 0 =
      (arrangeMovementsInColumns [mvB, mvA]).getD 1 0 :=
  ⟨List.Perm.swap mvB mvA [], by decide, rfl,
    arrange_order_independent [mvA, mvB] [mvB, mvA]
      (List.Perm.swap mvB mvA []) (by decide) 0 1 (by decide) (by decide) rfl⟩

/-- C6: converting a year to a scroll offset and back is the identity
whenever `PIXELS_PER_YEAR` is a strictly positive integer (the division is
exact and `Math.round` of an integer is itself). -/
theorem scroll_year_round_trip
    (year : Int) (timeRange : TimePeriod) (config : TimelineConfig)
    (k : Nat) (hk : 0 < k) (hppy : config.PIXELS_PER_YEAR = (k : ℚ)) :
    scrollOffsetToYear (yearToScrollOffset year timeRange config)
      timeRange config = year := by
  simp only [scrollOffsetToYear, yearToScrollOffset, jsRound]
  have hk0 : (k : ℚ) ≠ 0 := Nat.cast_ne_zero.2 (by omega)
  rw [hppy]
  have harg : (timeRange.start : ℚ) +
      (config.TIMELINE_PADDING + ((year - timeRange.start : Int) : ℚ) * (k : ℚ) -
        config.TIMELINE_PADDING) / (k : ℚ) + 1 / 2 = ((year : Int) : ℚ) + 1 / 2 := by
    field_simp
  rw [harg, Int.floor_int_add]
  norm_num

/-- Witness for C6: year 1500 in the 1400–1920 range with the default
config (`PIXELS_PER_YEAR = 2`). -/
theorem scroll_year_round_trip_witness :
    (0 : Nat) < 2 ∧ TIMELINE_CONFIG.PIXELS_PER_YEAR = ((2 : Nat) : ℚ) ∧
    scrollOffsetToYear
      (yearToScrollOffset 1500 { start := 1400, end' := some 1920 }
        TIMELINE_CONFIG)
      { start := 1400, end' := some 1920 } TIMELINE_CONFIG = 1500 :=
  ⟨by norm_num, by norm_num [TIMELINE_CONFIG],
    scroll_year_round_trip 1500 { start := 1400, end' := some 1920 }
      TIMELINE_CONFIG 2 (by norm_num) (by norm_num [TIMELINE_CONFIG])⟩

/-- C5 counterexample: with `PIXELS_PER_YEAR = -1` (not strictly positive)
the spec's checked conversion fails with `InvalidConfig`, but the code's
`scrollOffsetToYear` silently proceeds to divide and returns the year
1500 — no validation exists in the source. -/
theorem scrollOffsetToYear_no_validation :
    scrollOffsetToYearChecked 0 { start := 1400, end' := some 1920 } cfgNeg =
      Except.error "InvalidConfig" ∧
    scrollOffsetToYear 0 { start := 1400, end' := some 1920 } cfgNeg = 1500 := by
  constructor
  · norm_num [scrollOffsetToYearChecked, cfgNeg, TIMELINE_CONFIG]
  · norm_num [scrollOffsetToYear, jsRound, cfgNeg, TIMELINE_CONFIG]

/-- C5 amended: the code never validates; the spec-style checked conversion
agrees with the unchecked source function exactly when `PIXELS_PER_YEAR`
is strictly positive. -/
theorem scrollOffsetToYear_checked_agrees
    (scrollOffset : ℚ) (timeRange : TimePeriod) (config : TimelineConfig)
    (h : 0 < config.PIXELS_PER_YEAR) :
    scrollOffsetToYearChecked scrollOffset timeRange config =
      Except.ok (scrollOffsetToYear scrollOffset timeRange config) := by
  unfold scrollOffsetToYearChecked
  rw [if_neg (not_le.2 h)]

/-- Witness for the amended C5: the default config is strictly positive and
the checked conversion returns `ok` there. -/
theorem scrollOffsetToYear_checked_agrees_witness :
    (0 : ℚ) < TIMELINE_CONFIG.PIXELS_PER_YEAR ∧
    scrollOffsetToYearChecked 300 { start := 1400, end' := some 1920 }
        TIMELINE_CONFIG =
      Except.ok (scrollOffsetToYear 300 { start := 1400, end' := some 1920 }
        TIMELINE_CONFIG) :=
  ⟨by norm_num [TIMELINE_CONFIG],
    scrollOffsetToYear_checked_agrees 300 { start := 1400, end' := some 1920 }
      TIMELINE_CONFIG (by norm_num [TIMELINE_CONFIG])⟩

/-- C4 counterexample: scrolled far past the content
(`offset = 4100`, range 1400–1920, default config, screen height 667), the
computed "visible range" is `{start := 3400, end := 1920}` — its start
exceeds both its end and the time range's end, so the result does NOT lie
within the context's `timeRange`. -/
theorem updateVisibleRange_not_clamped :
    (updateVisibleRange 4100 667 { start := 1400, end' := some 1920 }
      TIMELINE_CONFIG).start = 3400 ∧
    (updateVisibleRange 4100 667 { start := 1400, end' := some 1920 }
      TIMELINE_CONFIG).end' = some 1920 ∧
    ¬((updateVisibleRange 4100 667 { start := 1400, end' := some 1920 }
      TIMELINE_CONFIG).start ≤ 1920) := by
  refine ⟨?_, ?_, ?_⟩ <;>
    norm_num [updateVisibleRange, scrollOffsetToYear, jsRound, jsOrElse,
      TIMELINE_CONFIG]

/-- C4 amended: the visible range lies within the overall `timeRange`
provided the scroll window itself maps into the range — i.e. the time range
has a nonzero (non-falsy) end at least its start, `PIXELS_PER_YEAR` is
positive, the viewport height is nonnegative, the offset's year does not
exceed the range's end, and the bottom offset's year is at least the
range's start. -/
theorem updateVisibleRange_clamped
    (offset screenHeight : ℚ) (timeRange : TimePeriod) (config : TimelineConfig)
    (e : Int) (he : timeRange.end' = some e) (hene : e ≠ 0)
    (hse : timeRange.start ≤ e)
    (hppy : 0 < config.PIXELS_PER_YEAR)
    (hsh : (200 : ℚ) ≤ screenHeight)
    (h1 : scrollOffsetToYear offset timeRange config ≤ e)
    (h2 : timeRange.start ≤
      scrollOffsetToYear (offset + (screenHeight - 200)) timeRange config) :
    ∃ rs re : Int,
      updateVisibleRange offset screenHeight timeRange config =
        { start := rs, end' := some re } ∧
      timeRange.start ≤ rs ∧ rs ≤ re ∧ re ≤ e := by
  have hmono : scrollOffsetToYear offset timeRange config ≤
      scrollOffsetToYear (offset + (screenHeight - 200)) timeRange config := by
    simp only [scrollOffsetToYear, jsRound]
    apply Int.floor_le_floor
    have hdiv : (offset - config.TIMELINE_PADDING) / config.PIXELS_PER_YEAR ≤
        (offset + (screenHeight - 200) - config.TIMELINE_PADDING) /
          config.PIXELS_PER_YEAR := by
      gcongr
      linarith
    linarith
  have hjs : jsOrElse timeRange.end' timeRange.start = e := by
    rw [he]
    simp [jsOrElse, hene]
  refine ⟨max (scrollOffsetToYear offset timeRange config) timeRange.start,
    min (scrollOffsetToYear (offset + (screenHeight - 200)) timeRange config)
      (jsOrElse timeRange.end' timeRange.start),
    rfl, le_max_right _ _, ?_, ?_⟩
  · rw [hjs]
    exact max_le (le_min hmono h1) (le_min h2 hse)
  · rw [hjs]
    exact min_le_right _ _

/-- Witness for the amended C4: offset 100, screen height 667, the default
config on the 1400–1920 range. -/
theorem updateVisibleRange_clamped_witness :
    (1920 : Int) ≠ 0 ∧ (1400 : Int) ≤ 1920 ∧
    (0 : ℚ) < TIMELINE_CONFIG.PIXELS_PER_YEAR ∧ (200 : ℚ) ≤ 667 ∧
    scrollOffsetToYear 100 { start := 1400, end' := some 1920 }
      TIMELINE_CONFIG ≤ 1920 ∧
    (1400 : Int) ≤ scrollOffsetToYear (100 + ((667 : ℚ) - 200))
      { start := 1400, end' := some 1920 } TIMELINE_CONFIG ∧
    ∃ rs re : Int,
      updateVisibleRange 100 667 { start := 1400, end' := some 1920 }
        TIMELINE_CONFIG = { start := rs, end' := some re } ∧
      (1400 : Int) ≤ rs ∧ rs ≤ re ∧ re ≤ 1920 :=
  ⟨by norm_num, by norm_num, by norm_num [TIMELINE_CONFIG], by norm_num,
    by norm_num [scrollOffsetToYear, jsRound, TIMELINE_CONFIG],
    by norm_num [scrollOffsetToYear, jsRound, TIMELINE_CONFIG],
    updateVisibleRange_clamped 100 667 { start := 1400, end' := some 1920 }
      TIMELINE_CONFIG 1920 rfl (by norm_num) (by norm_num)
      (by norm_num [TIMELINE_CONFIG]) (by norm_num)
      (by norm_num [scrollOffsetToYear, jsRound, TIMELINE_CONFIG])
      (by norm_num [scrollOffsetToYear, jsRound, TIMELINE_CONFIG])⟩

/-- C10: a period whose `end` equals `0` is treated as having no end (the
code tests JS falsiness, not absence): `formatYearRange` and the
TimeIndicator's `formatRange` print the start year alone, and the
Timeline's visible-range clamp behaves exactly as with an absent end
(substituting `timeRange.start`). -/
theorem end_zero_treated_as_absent
    (s : Int) (offset screenHeight : ℚ) (config : TimelineConfig) :
    formatYearRange { start := s, end' := some 0 } = toString s ∧
    TimeIndicator.formatRange { start := s, end' := some 0 } = toString s ∧
    updateVisibleRange offset screenHeight { start := s, end' := some 0 }
        config =
      updateVisibleRange offset screenHeight { start := s, end' := none }
        config := by
  refine ⟨?_, ?_, ?_⟩
  · simp [formatYearRange, jsFalsy]
  · simp [TimeIndicator.formatRange, jsFalsy]
  · simp [updateVisibleRange, jsOrElse, scrollOffsetToYear, jsRound]
